import Mathlib

/-!
Verification of the logview access-controlled file service.

The Python sources (`logview/config.py`, `logview/file_service.py`) are
shallowly embedded here:

* strings are `List Char`;
* filesystem paths are lists of path components;
* the filesystem is an explicit association list from absolute path
  components to nodes;
* Python `re` patterns are modelled by `RegularExpression Char`, with
  `reMatch` reproducing the semantics of `re.match` (anchored at the start
  of the string, allowed to match only a proper prefix);
* text files are modelled with LF line terminators; the universal-newline
  translation of a bare CR is not modelled (no analysed behaviour involves
  CR-terminated content), while the `rstrip` of trailing LF and CR
  characters performed by the code is modelled exactly;
* the unbounded tail loop is modelled with explicit fuel together with an
  append schedule: one schedule entry is consumed at each poll where no
  complete or partial line is available, so a run with a given fuel is
  a finite observation window of the infinite stream.
-/

/-- Boolean test reproducing Python `bool(re.match(pattern, s))` as used by
`file_matches_group`: the pattern must match starting at position 0 of `s`,
but it may match only a prefix of `s` (no full-string anchoring). -/
def reMatch (r : RegularExpression Char) : List Char → Bool
  | [] => r.matchEpsilon
  | c :: s => r.matchEpsilon || reMatch (r.deriv c) s

/-- Matching a prefix is the same as some genuine prefix of the input lying
in Mathlib's regular-expression language via `rmatch`. -/
theorem reMatch_iff_exists_pre (s : List Char) :
    ∀ r : RegularExpression Char,
      reMatch r s = true ↔ ∃ t, t <+: s ∧ r.rmatch t = true := by
  induction s with
  | nil =>
    intro r
    constructor
    · intro h
      refine ⟨[], ⟨[], rfl⟩, ?_⟩
      simpa [ reMatch, RegularExpression.rmatch ] using h
    · rintro ⟨t, ht, hm⟩
      have ht' : t = [] := List.prefix_nil.mp ht
      subst ht'
      simpa [ reMatch, RegularExpression.rmatch ] using hm
  | cons c cs ih =>
    intro r
    constructor
    · intro h
      have h' := h
      simp only [ reMatch, Bool.or_eq_true ] at h'
      rcases h' with he | htail
      · exact ⟨[], ⟨c :: cs, rfl⟩, by simpa [ RegularExpression.rmatch ] using he⟩
      · obtain ⟨t, ht, hm⟩ := (ih (r.deriv c)).mp htail
        refine ⟨c :: t, List.cons_prefix_cons.mpr ⟨rfl, ht⟩, ?_⟩
        simpa [ RegularExpression.rmatch ] using hm
    · rintro ⟨t, ht, hm⟩
      simp only [ reMatch, Bool.or_eq_true ]
      cases t with
      | nil =>
        left
        simpa [ RegularExpression.rmatch ] using hm
      | cons t0 ts =>
        obtain ⟨rfl, hts⟩ := List.cons_prefix_cons.mp ht
        right
        exact (ih (r.deriv t0)).mpr
          ⟨ts, hts, by simpa [ RegularExpression.rmatch ] using hm⟩

/-- Semantic reading of `reMatch`: some prefix of the input belongs to the
language of the pattern. -/
theorem reMatch_iff_matches_pre (r : RegularExpression Char) (s : List Char) :
    reMatch r s = true ↔ ∃ t, t <+: s ∧ t ∈ r.matches' := by
  rw [ reMatch_iff_exists_pre ]
  exact exists_congr fun t =>
    and_congr_right fun _ => RegularExpression.rmatch_iff_matches' r t

/-- Group record from `GroupConfig` in `config.py`: a name, a compiled regex
pattern anchored at the base path, and the list of authorized users. -/
structure GroupConfig where
  name : List Char
  pattern : RegularExpression Char
  users : List (List Char)

/-- Fields of the global `BackendConfig` (`settings` in the code) consumed by
the file service.  `base_path` is the already-resolved root directory as a
list of path components (the `base_path` validator calls `resolve()` on it at
load time). -/
structure Settings where
  base_path : List (List Char)
  max_file_size : Int
  default_page_size : Int
  max_page_size : Int
  groups : List GroupConfig

/-- Embedding of `file_matches_group` from `config.py`:
`bool(re.match(group.pattern, file_path))`. -/
def file_matches_group (file_path : List Char) (group : GroupConfig) : Bool :=
  reMatch group.pattern file_path

/-- Embedding of `get_user_groups` from `config.py`: names of the groups
whose user list contains the username, in configuration order. -/
def get_user_groups (cfg : Settings) (username : List Char) : List (List Char) :=
  (cfg.groups.filter (fun g => decide (username ∈ g.users))).map (fun g => g.name)

/-- Embedding of `get_group_by_name` from `config.py`: first configured group
with the given name. -/
def get_group_by_name (cfg : Settings) (group_name : List Char) :
    Option GroupConfig :=
  cfg.groups.find? (fun g => decide (g.name = group_name))

/-- Embedding of `get_accessible_groups_for_file` from `config.py`: of the
user's groups, keep those whose pattern matches the file path. -/
def get_accessible_groups_for_file (cfg : Settings) (username file_path : List Char) :
    List (List Char) :=
  (get_user_groups cfg username).filter (fun n =>
    match get_group_by_name cfg n with
    | some g => file_matches_group file_path g
    | none => false)

/-- When group names are unique (enforced by the `validate_groups` config
validator), looking a group's own name back up returns that group. -/
theorem find_name_self (gs : List GroupConfig) (g : GroupConfig)
    (hnodup : (gs.map (fun x => x.name)).Nodup) (hg : g ∈ gs) :
    gs.find? (fun x => decide (x.name = g.name)) = some g := by
  induction gs with
  | nil => cases hg
  | cons h t ih =>
    simp only [ List.map_cons, List.nodup_cons ] at hnodup
    rcases List.mem_cons.mp hg with rfl | hmem
    · exact List.find?_cons_of_pos _ (by simp)
    · have hne : ¬(h.name = g.name) := by
        intro e
        exact hnodup.1 (e ▸ List.mem_map_of_mem (fun x => x.name) hmem)
      rw [ List.find?_cons_of_neg _ (by simpa using hne) ]
      exact ih hnodup.2 hmem

/-- Under unique group names, `get_accessible_groups_for_file` is exactly the
name image of the groups that both contain the user and match the path. -/
theorem get_accessible_groups_eq (cfg : Settings) (u p : List Char)
    (hnodup : (cfg.groups.map (fun g => g.name)).Nodup) :
    get_accessible_groups_for_file cfg u p =
      (cfg.groups.filter
        (fun g => decide (u ∈ g.users) && file_matches_group p g)).map
        (fun g => g.name) := by
  unfold get_accessible_groups_for_file get_user_groups
  rw [ List.filter_map, List.filter_filter ]
  refine congrArg _ (List.filter_congr ?_)
  intro g hgmem
  have hlook : get_group_by_name cfg g.name = some g :=
    find_name_self cfg.groups g hnodup hgmem
  simp only [ Function.comp, hlook ]
  exact Bool.and_comm _ _

/-- C1: for every username U and root-relative path P,
`get_accessible_groups_for_file U P` is non-empty iff some configured group
has U among its users and the group's compiled pattern matches P anchored at
the start of the string (some prefix of P lies in the pattern's language; a
full-string match is not required), and the returned list is exactly the
names of such groups.  The `Nodup` hypothesis is the uniqueness of group
names enforced by the `validate_groups` configuration validator. -/
theorem c1_accessible_groups_characterization (cfg : Settings) (u p : List Char)
    (hnodup : (cfg.groups.map (fun g => g.name)).Nodup) :
    (get_accessible_groups_for_file cfg u p ≠ [] ↔
      ∃ g, g ∈ cfg.groups ∧ u ∈ g.users ∧
        ∃ t, t <+: p ∧ t ∈ g.pattern.matches')
    ∧ get_accessible_groups_for_file cfg u p =
        (cfg.groups.filter
          (fun g => decide (u ∈ g.users) && file_matches_group p g)).map
          (fun g => g.name) := by
  have h2 := get_accessible_groups_eq cfg u p hnodup
  refine ⟨?_, h2⟩
  rw [ h2, Ne, List.map_eq_nil_iff, List.filter_eq_nil_iff ]
  simp only [ not_forall, Classical.not_imp, not_not, Bool.and_eq_true,
    decide_eq_true_eq, file_matches_group, reMatch_iff_matches_pre ]
  constructor
  · rintro ⟨g, hg, hu, ht⟩
    exact ⟨g, hg, hu, ht⟩
  · rintro ⟨g, hg, hu, ht⟩
    exact ⟨g, hg, hu, ht⟩

/-- Concrete configuration used by the C1 witness: two groups with distinct
names and single-character patterns, one user. -/
def cfgC1 : Settings where
  base_path := [[ 'l', 'o', 'g' ]]
  max_file_size := 1000
  default_page_size := 3
  max_page_size := 5
  groups :=
    [ ⟨[ 'g', '1' ], RegularExpression.char 'a', [ [ 'u' ] ]⟩,
      ⟨[ 'g', '2' ], RegularExpression.char 'b', [ [ 'u' ] ]⟩ ]

/-- Witness for C1 at a concrete configuration, user and path. -/
theorem c1_accessible_groups_witness :
    ((cfgC1.groups.map (fun g => g.name)).Nodup) ∧
    ((get_accessible_groups_for_file cfgC1 [ 'u' ] [ 'a', 'b' ] ≠ [] ↔
        ∃ g, g ∈ cfgC1.groups ∧ [ 'u' ] ∈ g.users ∧
          ∃ t, t <+: [ 'a', 'b' ] ∧ t ∈ g.pattern.matches')
      ∧ get_accessible_groups_for_file cfgC1 [ 'u' ] [ 'a', 'b' ] =
          (cfgC1.groups.filter
            (fun g =>
              decide ([ 'u' ] ∈ g.users) && file_matches_group [ 'a', 'b' ] g)).map
            (fun g => g.name)) :=
  ⟨by decide,
    c1_accessible_groups_characterization cfgC1 [ 'u' ] [ 'a', 'b' ] (by decide)⟩

/-- Error taxonomy of the file service: one constructor per distinct
`HTTPException` raised in `file_service.py`. -/
inductive Err
  | outOfBoundsPath
  | accessDenied
  | notFound
  | notAFile
  | notADirectory
  | tooLarge
  | ioError
  | permissionDenied
deriving DecidableEq

/-- Python `relative_path.lstrip(chr(47))` as in `_get_absolute_path`:
removes every leading slash character, not just one. -/
def lstripSlash (s : List Char) : List Char :=
  s.dropWhile (fun c => decide (c = '/'))

/-- Split a raw path string on slash characters. -/
def splitOnSlashAux (cur : List Char) : List Char → List (List Char)
  | [] => [cur.reverse]
  | c :: rest =>
    if c = '/' then cur.reverse :: splitOnSlashAux [] rest
    else splitOnSlashAux (c :: cur) rest

/-- Components of a relative path string as parsed by `pathlib`: empty
segments and single-dot segments are dropped at construction time. -/
def parseSegs (s : List Char) : List (List Char) :=
  (splitOnSlashAux [] s).filter (fun seg => decide (seg ≠ [] ∧ seg ≠ [ '.' ]))

/-- Logical `..` elimination performed by `Path.resolve()` (symlink-free
model): a `..` segment removes the last component and is a no-op at the
filesystem root. -/
def resolveDots (segs : List (List Char)) : List (List Char) :=
  segs.foldl
    (fun acc seg => if seg = [ '.', '.' ] then acc.dropLast else acc ++ [seg]) []

/-- Embedding of `FileService._get_absolute_path`: strip leading slashes from
the input, join it to the resolved base path, fully resolve `..` segments,
then require the result to stay at or below `base` (the
`absolute_path.relative_to(self.base_path)` containment check). -/
def get_absolute_path (base : List (List Char)) (relative_path : List Char) :
    Except Err (List (List Char)) :=
  let stripped := lstripSlash relative_path
  let absolute := resolveDots (base ++ parseSegs stripped)
  if base.isPrefixOf absolute then Except.ok absolute
  else Except.error Err.outOfBoundsPath

/-- Base path representing a two-component root directory such as
`/var/log`, used by the concrete path-safety probes. -/
def baseVarLog : List (List Char) := [ [ 'v', 'a', 'r' ], [ 'l', 'o', 'g' ] ]

/-- Raw input string modelling a double dot-dot traversal towards
`etc/passwd`. -/
def inputDotDotEtc : List Char :=
  [ '.', '.', '/', '.', '.', '/', 'e', 't', 'c', '/', 'p', 'a', 's', 's', 'w', 'd' ]

/-- Raw input string modelling an absolute-path injection of `etc/passwd`. -/
def inputAbsEtc : List Char :=
  [ '/', 'e', 't', 'c', '/', 'p', 'a', 's', 's', 'w', 'd' ]

/-- Raw input string whose `..` segments climb one level above the root. -/
def inputADotDotB : List Char :=
  [ 'a', '/', '.', '.', '/', '.', '.', '/', 'b' ]

/-- Raw input string for a well-behaved two-component relative path. -/
def inputAB : List Char := [ 'a', '/', 'b' ]

/-- C2: `_get_absolute_path` fails with `OutOfBoundsPath` exactly when the
fully canonicalized result of joining the slash-stripped input to the
configured root does not fall within the resolved root; at the root
`/var/log` the traversal probes `../../etc/passwd` and `a/../../b` escape and
fail, while `/etc/passwd` (re-anchored inside the root by the slash
stripping, hence not escaping) and `a/b` succeed with results contained in
the root. -/
theorem c2_out_of_bounds_characterization :
    (∀ base input,
        get_absolute_path base input = Except.error Err.outOfBoundsPath ↔
          ¬ base.isPrefixOf
              (resolveDots (base ++ parseSegs (lstripSlash input))) = true)
    ∧ get_absolute_path baseVarLog inputDotDotEtc
        = Except.error Err.outOfBoundsPath
    ∧ get_absolute_path baseVarLog inputADotDotB
        = Except.error Err.outOfBoundsPath
    ∧ (∃ q, get_absolute_path baseVarLog inputAbsEtc = Except.ok q
        ∧ baseVarLog.isPrefixOf q = true)
    ∧ (∃ q, get_absolute_path baseVarLog inputAB = Except.ok q
        ∧ baseVarLog.isPrefixOf q = true) := by
  refine ⟨?_, by rfl, by rfl, ?_, ?_⟩
  · intro base input
    by_cases h : base.isPrefixOf
        (resolveDots (base ++ parseSegs (lstripSlash input))) = true
    · simp [ get_absolute_path, h ]
    · simp [ get_absolute_path, h ]
  · exact ⟨resolveDots (baseVarLog ++ parseSegs (lstripSlash inputAbsEtc)),
      by rfl, by rfl⟩
  · exact ⟨resolveDots (baseVarLog ++ parseSegs (lstripSlash inputAB)),
      by rfl, by rfl⟩

/-- Witness for C2: the dot-dot traversal probe concretely fails with the
out-of-bounds error. -/
theorem c2_out_of_bounds_witness :
    get_absolute_path baseVarLog inputDotDotEtc
      = Except.error Err.outOfBoundsPath :=
  c2_out_of_bounds_characterization.2.1

/-- Counterexample to C3: on an input with two leading slashes the code
removes both of them, not exactly one as claimed. -/
theorem c3_counterexample_strip :
    lstripSlash [ '/', '/', 'a' ] = [ 'a' ] ∧
      lstripSlash [ '/', '/', 'a' ] ≠ List.drop 1 [ '/', '/', 'a' ] := by
  exact ⟨rfl, by decide⟩

/-- C3 amended: before joining, `_get_absolute_path` strips the whole
maximal run of leading slash characters from the input (so the stripped
input never begins with a slash), rather than exactly one separator. -/
theorem c3_amended_strip_all (s : List Char) :
    lstripSlash s =
        s.drop ((s.takeWhile (fun c => decide (c = '/'))).length) ∧
      (lstripSlash s).head? ≠ some '/' := by
  induction s with
  | nil => exact ⟨rfl, by simp [ lstripSlash ]⟩
  | cons c rest ih =>
    by_cases h : c = '/'
    · subst h
      constructor
      · simpa [ lstripSlash, List.dropWhile, List.takeWhile ] using ih.1
      · simpa [ lstripSlash, List.dropWhile ] using ih.2
    · constructor
      · simp [ lstripSlash, List.dropWhile, List.takeWhile, h ]
      · simp [ lstripSlash, List.dropWhile, h ]

/-- Witness for the amended C3 on the double-slash input. -/
theorem c3_amended_witness :
    lstripSlash [ '/', '/', 'a' ] =
        List.drop
          ((List.takeWhile (fun c => decide (c = '/')) [ '/', '/', 'a' ]).length)
          [ '/', '/', 'a' ] ∧
      (lstripSlash [ '/', '/', 'a' ]).head? ≠ some '/' :=
  c3_amended_strip_all [ '/', '/', 'a' ]

/-- Filesystem node: a regular file with its text content and a readability
flag (modelling whether `open` succeeds), or a directory with a listability
flag (modelling whether `iterdir` succeeds). -/
inductive FSNode
  | file (content : List Char) (readable : Bool)
  | dir (listable : Bool)
deriving DecidableEq

/-- Filesystem snapshot: an association list from absolute path components
to nodes. -/
structure FS where
  entries : List (List (List Char) × FSNode)
deriving DecidableEq

/-- Node stored at a path, first entry wins. -/
def FS.find? (fs : FS) (p : List (List Char)) : Option FSNode :=
  (fs.entries.find? (fun e => decide (e.1 = p))).map (fun e => e.2)

/-- Python `Path.exists()` against the snapshot. -/
def FS.pathExists (fs : FS) (p : List (List Char)) : Bool :=
  (fs.find? p).isSome

/-- Python `Path.is_file()` against the snapshot. -/
def FS.isFile (fs : FS) (p : List (List Char)) : Bool :=
  match fs.find? p with
  | some (FSNode.file _ _) => true
  | _ => false

/-- Python `line.rstrip` with LF and CR characters, as applied to every
returned line. -/
def rstripNL (s : List Char) : List Char :=
  (s.reverse.dropWhile (fun c => decide (c = '\n' ∨ c = '\r'))).reverse

/-- Accumulator-based scanner behind `pyLines`. -/
def pyLinesAux : List Char → List Char → List (List Char)
  | cur, [] => if cur = [] then [] else [cur.reverse]
  | cur, c :: rest =>
    if c = '\n' then (cur.reverse ++ [ '\n' ]) :: pyLinesAux [] rest
    else pyLinesAux (c :: cur) rest

/-- Lines of a text file as iterated by Python in text mode: each line keeps
its LF terminator, and a final unterminated fragment counts as a line. -/
def pyLines (content : List Char) : List (List Char) :=
  pyLinesAux [] content

/-- Embedding of `FileService.get_file_content`: clamp the page size, check
authorization on the raw request path, resolve the path against the root,
then check existence, the regular-file property, the size bound and
readability, and finally return the requested window of rstripped lines,
the total line count, and the has-more flag. -/
def get_file_content (cfg : Settings) (fs : FS) (username file_path : List Char)
    (start_line : Int) (page_size : Option Int) :
    Except Err (List (List Char) × Nat × Bool) :=
  let ps := min (page_size.getD cfg.default_page_size) cfg.max_page_size
  if get_accessible_groups_for_file cfg username file_path = [] then
    Except.error Err.accessDenied
  else
    match get_absolute_path cfg.base_path file_path with
    | Except.error e => Except.error e
    | Except.ok absolute =>
      match fs.find? absolute with
      | none => Except.error Err.notFound
      | some (FSNode.dir _) => Except.error Err.notAFile
      | some (FSNode.file content readable) =>
        if (content.length : Int) > cfg.max_file_size then
          Except.error Err.tooLarge
        else if readable = false then Except.error Err.ioError
        else
          let ls := pyLines content
          let total := ls.length
          let lines :=
            ((ls.drop (start_line - 1).toNat).take ps.toNat).map rstripNL
          Except.ok (lines, total,
            decide (start_line + (lines.length : Int) - 1 < (total : Int)))

/-- C5: `get_file_content` checks its failure conditions in a fixed order:
authorization first (so an unauthorized request for a non-existent file
fails with `accessDenied`, not `notFound`), then existence, then the
regular-file check, then the size bound, and then readability of the file
being opened. -/
theorem c5_error_check_order (cfg : Settings) (fs : FS) (u p : List Char)
    (sl : Int) (ps : Option Int) :
    (get_accessible_groups_for_file cfg u p = [] →
      get_file_content cfg fs u p sl ps = Except.error Err.accessDenied)
    ∧ (∀ q, get_accessible_groups_for_file cfg u p ≠ [] →
        get_absolute_path cfg.base_path p = Except.ok q →
        fs.pathExists q = false →
        get_file_content cfg fs u p sl ps = Except.error Err.notFound)
    ∧ (∀ q, get_accessible_groups_for_file cfg u p ≠ [] →
        get_absolute_path cfg.base_path p = Except.ok q →
        fs.pathExists q = true → fs.isFile q = false →
        get_file_content cfg fs u p sl ps = Except.error Err.notAFile)
    ∧ (∀ q c r, get_accessible_groups_for_file cfg u p ≠ [] →
        get_absolute_path cfg.base_path p = Except.ok q →
        fs.find? q = some (FSNode.file c r) →
        (c.length : Int) > cfg.max_file_size →
        get_file_content cfg fs u p sl ps = Except.error Err.tooLarge)
    ∧ (∀ q c, get_accessible_groups_for_file cfg u p ≠ [] →
        get_absolute_path cfg.base_path p = Except.ok q →
        fs.find? q = some (FSNode.file c false) →
        (c.length : Int) ≤ cfg.max_file_size →
        get_file_content cfg fs u p sl ps = Except.error Err.ioError) := by
  refine ⟨?_, ?_, ?_, ?_, ?_⟩
  · intro h
    simp [ get_file_content, h ]
  · intro q hne hq hex
    have hfind : fs.find? q = none := by
      simp only [ FS.pathExists, Option.isSome ] at hex
      cases hfound : fs.find? q with
      | none => rfl
      | some v => rw [ hfound ] at hex; cases hex
    simp [ get_file_content, hne, hq, hfind ]
  · intro q hne hq hex hnf
    cases hfound : fs.find? q with
    | none => simp [ FS.pathExists, hfound ] at hex
    | some node =>
      cases node with
      | file c r => simp [ FS.isFile, hfound ] at hnf
      | dir b => simp [ get_file_content, hne, hq, hfound ]
  · intro q c r hne hq hfind hbig
    simp [ get_file_content, hne, hq, hfind, hbig ]
  · intro q c hne hq hfind hsize
    have hnb : ¬ ((c.length : Int) > cfg.max_file_size) := not_lt.mpr hsize
    simp [ get_file_content, hne, hq, hfind, hnb ]

/-- Concrete configuration with no groups at all, so every user has an empty
group list. -/
def cfgNoGroups : Settings where
  base_path := [ [ 'l', 'o', 'g' ] ]
  max_file_size := 100
  default_page_size := 2
  max_page_size := 4
  groups := []

/-- Completely empty filesystem snapshot. -/
def fsEmpty : FS := ⟨[]⟩

/-- Witness for C5: an unauthorized request for a non-existent file fails
with the access-denied error, not with not-found. -/
theorem c5_error_check_order_witness :
    get_file_content cfgNoGroups fsEmpty [ 'u' ] [ 'f' ] 1 none
      = Except.error Err.accessDenied :=
  (c5_error_check_order cfgNoGroups fsEmpty [ 'u' ] [ 'f' ] 1 none).1 (by rfl)

/-- On any successful call, the returned lines were produced by `take` of
the clamped page size, so their number is bounded by its `toNat`. -/
theorem gfc_lines_length_le (cfg : Settings) (fs : FS) (u p : List Char)
    (sl : Int) (ps : Option Int) (lines : List (List Char)) (total : Nat)
    (hm : Bool)
    (h : get_file_content cfg fs u p sl ps = Except.ok (lines, total, hm)) :
    lines.length ≤ (min (ps.getD cfg.default_page_size) cfg.max_page_size).toNat := by
  unfold get_file_content at h
  split at h
  · simp at h
  · split at h
    · simp at h
    · split at h
      · simp at h
      · simp at h
      · split at h
        · simp at h
        · split at h
          · simp at h
          · simp only [ Except.ok.injEq, Prod.mk.injEq ] at h
            obtain ⟨h1, -, -⟩ := h
            rw [ ← h1 ]
            simp only [ List.length_map ]
            exact List.length_take_le _ _

/-- Configuration with one group whose pattern matches every path (the empty
pattern) and one user, used by the pagination scenarios. -/
def cfgEps : Settings where
  base_path := [ [ 'l', 'o', 'g' ] ]
  max_file_size := 100
  default_page_size := 2
  max_page_size := 10000
  groups := [ ⟨[ 'g' ], RegularExpression.epsilon, [ [ 'u' ] ]⟩ ]

/-- Snapshot holding the root directory and one readable one-line file. -/
def fsOne : FS :=
  ⟨[ ([ [ 'l', 'o', 'g' ] ], FSNode.dir true),
     ([ [ 'l', 'o', 'g' ], [ 'f' ] ], FSNode.file [ 's', '\n' ] true) ]⟩

/-- Counterexample to C9: a successful call with requested page size `-1`
returns zero lines, yet zero exceeds the effective page size
`min (-1) max_page_size = -1`, so the claimed invariant
`lines.length ≤ effectivePageSize` fails on this call. -/
theorem c9_counterexample_negative_page :
    get_file_content cfgEps fsOne [ 'u' ] [ 'f' ] 1 (some (-1))
        = Except.ok ([], 1, true)
    ∧ ¬ ((([] : List (List Char)).length : Int)
          ≤ min (-1) cfgEps.max_page_size) :=
  ⟨rfl, by decide⟩

/-- C9 amended: on every successful call the number of returned lines is at
most `max effective 0` where `effective` is the requested (or default) page
size clamped to the configured maximum; `effective` never exceeds the
configured maximum; and whenever `effective` is nonnegative — in particular
for every nonnegative requested or default page size — the original bound
`lines.length ≤ effective` holds. -/
theorem c9_amended_page_size_bound (cfg : Settings) (fs : FS)
    (u p : List Char) (sl : Int) (ps : Option Int) (lines : List (List Char))
    (total : Nat) (hm : Bool)
    (h : get_file_content cfg fs u p sl ps = Except.ok (lines, total, hm)) :
    ((lines.length : Int)
        ≤ max (min (ps.getD cfg.default_page_size) cfg.max_page_size) 0)
    ∧ min (ps.getD cfg.default_page_size) cfg.max_page_size ≤ cfg.max_page_size
    ∧ (0 ≤ min (ps.getD cfg.default_page_size) cfg.max_page_size →
        (lines.length : Int)
          ≤ min (ps.getD cfg.default_page_size) cfg.max_page_size) := by
  have hle := gfc_lines_length_le cfg fs u p sl ps lines total hm h
  have hcast : (((min (ps.getD cfg.default_page_size) cfg.max_page_size).toNat : Int))
      = max (min (ps.getD cfg.default_page_size) cfg.max_page_size) 0 :=
    Int.ofNat_toNat _
  have hb : (lines.length : Int)
      ≤ max (min (ps.getD cfg.default_page_size) cfg.max_page_size) 0 := by
    rw [ ← hcast ]
    exact_mod_cast hle
  refine ⟨hb, min_le_right _ _, fun h0 => ?_⟩
  have : max (min (ps.getD cfg.default_page_size) cfg.max_page_size) 0
      = min (ps.getD cfg.default_page_size) cfg.max_page_size :=
    max_eq_left h0
  rw [ this ] at hb
  exact hb

/-- Witness for the amended C9 at a concrete successful call with
requested page size 2. -/
theorem c9_amended_page_size_bound_witness :
    (get_file_content cfgEps fsOne [ 'u' ] [ 'f' ] 1 (some 2)
        = Except.ok ([ [ 's' ] ], 1, false))
    ∧ ((((([ [ 's' ] ] : List (List Char))).length : Int)
          ≤ max (min ((some (2 : Int)).getD cfgEps.default_page_size)
              cfgEps.max_page_size) 0)
        ∧ min ((some (2 : Int)).getD cfgEps.default_page_size)
            cfgEps.max_page_size ≤ cfgEps.max_page_size
        ∧ (0 ≤ min ((some (2 : Int)).getD cfgEps.default_page_size)
              cfgEps.max_page_size →
            ((([ [ 's' ] ] : List (List Char))).length : Int)
              ≤ min ((some (2 : Int)).getD cfgEps.default_page_size)
                  cfgEps.max_page_size)) :=
  ⟨rfl, c9_amended_page_size_bound cfgEps fsOne [ 'u' ] [ 'f' ] 1 (some 2)
      [ [ 's' ] ] 1 false rfl⟩

/-- C8: on a static 15-line file that the user is authorized for, the calls
with (startLine 1, pageSize 10) and (startLine 11, pageSize 10) return
lines 1-10 and lines 11-15: ten and five lines whose concatenation is the
whole rstripped line list of the file (no overlap, no gap), and the second
call reports `hasMore = false`. -/
theorem c8_pagination_partition (cfg : Settings) (fs : FS) (u p : List Char)
    (q : List (List Char)) (c : List Char)
    (hauth : get_accessible_groups_for_file cfg u p ≠ [])
    (hq : get_absolute_path cfg.base_path p = Except.ok q)
    (hfind : fs.find? q = some (FSNode.file c true))
    (hsize : (c.length : Int) ≤ cfg.max_file_size)
    (h15 : (pyLines c).length = 15)
    (hmax : 10 ≤ cfg.max_page_size) :
    get_file_content cfg fs u p 1 (some 10)
        = Except.ok (((pyLines c).take 10).map rstripNL, 15, true)
    ∧ get_file_content cfg fs u p 11 (some 10)
        = Except.ok ((((pyLines c).drop 10).take 10).map rstripNL, 15, false)
    ∧ ((pyLines c).take 10).map rstripNL
          ++ (((pyLines c).drop 10).take 10).map rstripNL
        = (pyLines c).map rstripNL
    ∧ (((pyLines c).take 10).map rstripNL).length = 10
    ∧ ((((pyLines c).drop 10).take 10).map rstripNL).length = 5 := by
  have hnb : ¬ ((c.length : Int) > cfg.max_file_size) := not_lt.mpr hsize
  have heff : min ((some (10 : Int)).getD cfg.default_page_size)
      cfg.max_page_size = 10 := by
    simpa using min_eq_left hmax
  have hl1 : (((pyLines c).take 10).map rstripNL).length = 10 := by
    simp [ List.length_take, h15 ]
  have hl2 : ((((pyLines c).drop 10).take 10).map rstripNL).length = 5 := by
    simp [ List.length_take, List.length_drop, h15 ]
  refine ⟨?_, ?_, ?_, hl1, hl2⟩
  · simp only [ get_file_content, heff ]
    rw [ if_neg hauth, hq ]
    simp only [ hfind ]
    rw [ if_neg hnb ]
    rw [ if_neg (by decide : ¬ (true = false)) ]
    have hskip : ((1 : Int) - 1).toNat = 0 := rfl
    have htn : ((10 : Int)).toNat = 10 := rfl
    simp only [ hskip, htn, List.drop_zero ]
    rw [ h15 ]
    simp only [ Except.ok.injEq, Prod.mk.injEq ]
    refine ⟨trivial, trivial, ?_⟩
    simp only [ decide_eq_true_eq, hl1 ]
    norm_num
  · simp only [ get_file_content, heff ]
    rw [ if_neg hauth, hq ]
    simp only [ hfind ]
    rw [ if_neg hnb ]
    rw [ if_neg (by decide : ¬ (true = false)) ]
    have hskip : ((11 : Int) - 1).toNat = 10 := rfl
    have htn : ((10 : Int)).toNat = 10 := rfl
    simp only [ hskip, htn ]
    rw [ h15 ]
    simp only [ Except.ok.injEq, Prod.mk.injEq ]
    refine ⟨trivial, trivial, ?_⟩
    simp only [ decide_eq_false_iff_not, hl2 ]
    norm_num
  · rw [ ← List.map_append, ← List.take_add ]
    rw [ List.take_of_length_le (by omega) ]

/-- Concrete 15-line file content: lines `0` through `9` and `a` through
`e`, each LF-terminated. -/
def content15 : List Char :=
  [ '0', '\n', '1', '\n', '2', '\n', '3', '\n', '4', '\n',
    '5', '\n', '6', '\n', '7', '\n', '8', '\n', '9', '\n',
    'a', '\n', 'b', '\n', 'c', '\n', 'd', '\n', 'e', '\n' ]

/-- Snapshot holding the root directory and the readable 15-line file. -/
def fs15 : FS :=
  ⟨[ ([ [ 'l', 'o', 'g' ] ], FSNode.dir true),
     ([ [ 'l', 'o', 'g' ], [ 'f' ] ], FSNode.file content15 true) ]⟩

/-- Witness for C8 on the concrete 15-line file. -/
theorem c8_pagination_partition_witness :
    get_file_content cfgEps fs15 [ 'u' ] [ 'f' ] 1 (some 10)
        = Except.ok (((pyLines content15).take 10).map rstripNL, 15, true)
    ∧ get_file_content cfgEps fs15 [ 'u' ] [ 'f' ] 11 (some 10)
        = Except.ok ((((pyLines content15).drop 10).take 10).map rstripNL,
            15, false)
    ∧ ((pyLines content15).take 10).map rstripNL
          ++ (((pyLines content15).drop 10).take 10).map rstripNL
        = (pyLines content15).map rstripNL
    ∧ (((pyLines content15).take 10).map rstripNL).length = 10
    ∧ ((((pyLines content15).drop 10).take 10).map rstripNL).length = 5 :=
  c8_pagination_partition cfgEps fs15 [ 'u' ] [ 'f' ]
    [ [ 'l', 'o', 'g' ], [ 'f' ] ] content15
    (by decide) rfl rfl (by decide) rfl (by decide)

/-- Python `Path.is_dir()` against the snapshot. -/
def FS.isDir (fs : FS) (p : List (List Char)) : Bool :=
  match fs.find? p with
  | some (FSNode.dir _) => true
  | _ => false

/-- Whether `iterdir` succeeds on the directory (a failing enumeration
raises `PermissionError` in the code). -/
def FS.isListable (fs : FS) (p : List (List Char)) : Bool :=
  match fs.find? p with
  | some (FSNode.dir b) => b
  | _ => false

/-- Embedding of `FileService._get_relative_path`:
`str(absolute.relative_to(base))`, i.e. the components after the base joined
with slashes. -/
def pathToStr (p : List (List Char)) : List Char :=
  List.intercalate [ '/' ] p

/-- Data kept by the Python `FileInfo` wrapper: absolute path, path relative
to the base, and the node captured by `stat`. -/
structure FileInfo where
  path : List (List Char)
  relative_path : List Char
  node : FSNode
deriving DecidableEq

/-- Python `Path.name`: last path component. -/
def FileInfo.name (f : FileInfo) : List Char :=
  f.path.getLastD []

/-- Python string comparison used by `sorted(key=name)`: lexicographic by
character code. -/
def leName : List Char → List Char → Bool
  | [], _ => true
  | _ :: _, [] => false
  | a :: as, b :: bs => if a = b then leName as bs else decide (a < b)

/-- Insert one entry into a name-sorted list, keeping earlier entries first
on ties. -/
def insertByName (x : FileInfo) : List FileInfo → List FileInfo
  | [] => [x]
  | y :: ys =>
    if leName x.name y.name then x :: y :: ys else y :: insertByName x ys

/-- Stable sort by file name ascending, modelling Python `sorted`. -/
def sortByName : List FileInfo → List FileInfo
  | [] => []
  | x :: xs => insertByName x (sortByName xs)

/-- Python `dir_path.iterdir()` against the snapshot: the entries exactly one
component below the directory, in snapshot order. -/
def FS.children (fs : FS) (d : List (List Char)) :
    List (List (List Char) × FSNode) :=
  fs.entries.filter
    (fun e => decide (e.1.length = d.length + 1) && d.isPrefixOf e.1)

/-- Embedding of `FileService.list_files`: resolve the directory, check
existence and directory-ness, return an empty listing for users with no
groups, then (when the directory is enumerable) keep exactly the children
whose relative path the user may access, sorted by name. -/
def list_files (cfg : Settings) (fs : FS) (username : List Char)
    (directory : List Char) : Except Err (List FileInfo) :=
  match get_absolute_path cfg.base_path directory with
  | Except.error e => Except.error e
  | Except.ok dirPath =>
    if fs.pathExists dirPath = false then Except.error Err.notFound
    else if fs.isDir dirPath = false then Except.error Err.notADirectory
    else if get_user_groups cfg username = [] then Except.ok []
    else if fs.isListable dirPath = false then Except.error Err.permissionDenied
    else
      Except.ok (sortByName
        (((fs.children dirPath).filter (fun e =>
            decide (get_accessible_groups_for_file cfg username
              (pathToStr (e.1.drop cfg.base_path.length)) ≠ []))).map
          (fun e => ⟨e.1, pathToStr (e.1.drop cfg.base_path.length), e.2⟩)))

/-- Counterexample to C4: a user with no group memberships asking for a
non-existent directory receives the not-found error (the existence check
precedes the empty-groups short-circuit and touches the filesystem), not an
empty listing. -/
theorem c4_counterexample_nonexistent_dir :
    get_user_groups cfgNoGroups [ 'u' ] = []
    ∧ list_files cfgNoGroups fsEmpty [ 'u' ] [ 'n' ]
        = Except.error Err.notFound :=
  ⟨rfl, rfl⟩

/-- C4 amended: once the requested directory has been resolved, exists and
is a directory, a user with no group memberships receives an empty listing
without error; the result does not depend on the directory's children or on
its enumerability, so the directory is never enumerated for such users.
Paths failing the earlier checks error even for those users. -/
theorem c4_amended_empty_groups_listing (cfg : Settings) (fs : FS)
    (u d : List Char) (q : List (List Char))
    (hq : get_absolute_path cfg.base_path d = Except.ok q)
    (hex : fs.pathExists q = true)
    (hdir : fs.isDir q = true)
    (hug : get_user_groups cfg u = []) :
    list_files cfg fs u d = Except.ok [] := by
  simp [ list_files, hq, hex, hdir, hug ]

/-- Witness for the amended C4: the base directory itself listed by a user
with no groups. -/
theorem c4_amended_empty_groups_listing_witness :
    list_files cfgNoGroups fsOne [ 'u' ] [] = Except.ok [] :=
  c4_amended_empty_groups_listing cfgNoGroups fsOne [ 'u' ] []
    [ [ 'l', 'o', 'g' ] ] rfl rfl rfl rfl

/-- Python `f.readline()` on the text after the current offset: the
characters up to and including the first LF, or everything up to EOF when no
LF follows (a non-empty unterminated fragment is returned as-is, an empty
result means end of data). -/
def takeLine : List Char → List Char
  | [] => []
  | c :: rest => if c = '\n' then [ '\n' ] else c :: takeLine rest

/-- Poll loop of `tail_file`, observed for `fuel` steps: read a line at the
current offset and emit its rstripped form immediately, or, when no data is
available, consume the next scheduled append (an empty append models a poll
interval in which the file did not change); when the schedule is exhausted
the observation window ends with no further emissions. -/
def tailLoop : Nat → List Char → Nat → List (List Char) → List (List Char)
  | 0, _, _, _ => []
  | fuel + 1, content, off, sched =>
    let line := takeLine (content.drop off)
    if line = [] then
      match sched with
      | [] => []
      | a :: rest => tailLoop fuel (content ++ a) off rest
    else
      rstripNL line :: tailLoop fuel content (off + line.length) sched

/-- One-step unfolding of the poll loop. -/
theorem tailLoop_succ (fuel : Nat) (content : List Char) (off : Nat)
    (sched : List (List Char)) :
    tailLoop (fuel + 1) content off sched =
      if takeLine (content.drop off) = [] then
        match sched with
        | [] => []
        | a :: rest => tailLoop fuel (content ++ a) off rest
      else
        rstripNL (takeLine (content.drop off))
          :: tailLoop fuel content
              (off + (takeLine (content.drop off)).length) sched := rfl

/-- Embedding of `FileService.tail_file`: the same authorization,
resolution, existence and regular-file checks as `get_file_content` (the
size bound is absent in the code), then a seek to the end of the file
followed by the poll loop. -/
def tail_file (cfg : Settings) (fs : FS) (username file_path : List Char)
    (sched : List (List Char)) (fuel : Nat) :
    Except Err (List (List Char)) :=
  if get_accessible_groups_for_file cfg username file_path = [] then
    Except.error Err.accessDenied
  else
    match get_absolute_path cfg.base_path file_path with
    | Except.error e => Except.error e
    | Except.ok absolute =>
      match fs.find? absolute with
      | none => Except.error Err.notFound
      | some (FSNode.dir _) => Except.error Err.notAFile
      | some (FSNode.file content readable) =>
        if readable = false then Except.error Err.ioError
        else Except.ok (tailLoop fuel content content.length sched)

/-- Reading a line from an LF-free buffer followed by an LF returns the
buffer together with its terminator. -/
theorem takeLine_append (line rest : List Char) (h : '\n' ∉ line) :
    takeLine (line ++ '\n' :: rest) = line ++ [ '\n' ] := by
  induction line with
  | nil => simp [ takeLine ]
  | cons c cs ih =>
    have hc : ¬ (c = '\n') := fun e => h (e ▸ List.mem_cons_self c cs)
    simp [ takeLine, hc,
      ih (fun hm => h (List.mem_cons_of_mem c hm)) ]

/-- The rstrip applied to an emitted LF-terminated line with no internal LF
or CR characters removes exactly the terminator. -/
theorem rstrip_line (line : List Char) (h1 : '\n' ∉ line) (h2 : '\r' ∉ line) :
    rstripNL (line ++ [ '\n' ]) = line := by
  unfold rstripNL
  rw [ List.reverse_append ]
  simp only [ List.reverse_cons, List.reverse_nil, List.nil_append,
    List.singleton_append, List.dropWhile_cons ]
  simp only [ decide_eq_true_eq, true_or, if_true ]
  cases hrev : line.reverse with
  | nil =>
    have : line = [] := by simpa using congrArg List.reverse hrev
    simp [ this ]
  | cons c cs =>
    have hcmem : c ∈ line := by
      have : c ∈ line.reverse := by rw [ hrev ]; exact List.mem_cons_self c cs
      simpa using this
    have hcn : ¬ (c = '\n' ∨ c = '\r') := by
      rintro (rfl | rfl)
      · exact h1 hcmem
      · exact h2 hcmem
    rw [ List.dropWhile_cons ]
    simp only [ decide_eq_true_eq ]
    rw [ if_neg hcn ]
    have : (c :: cs).reverse = line := by
      rw [ ← hrev ]
      exact List.reverse_reverse line
    rw [ this ]

/-- Empty polls at the end of the file emit nothing, whatever the fuel. -/
theorem tailLoop_empty_polls_end (fuel : Nat) :
    ∀ (m : Nat) (content : List Char) (off : Nat),
      content.length ≤ off →
      tailLoop fuel content off (List.replicate m []) = [] := by
  induction fuel with
  | zero => intro m content off _; rfl
  | succ n ih =>
    intro m content off h
    have hdrop : content.drop off = [] := List.drop_eq_nil_of_le h
    rw [ tailLoop_succ, hdrop,
      if_pos (show takeLine ([] : List Char) = [] from rfl) ]
    cases m with
    | zero => rfl
    | succ m' =>
      rw [ List.replicate_succ ]
      show tailLoop n (content ++ []) off (List.replicate m' []) = []
      rw [ List.append_nil ]
      exact ih m' content off h

/-- Empty polls before any data arrives just consume fuel and schedule. -/
theorem tailLoop_empty_polls_pre (k : Nat) :
    ∀ (fuel : Nat) (content : List Char) (off : Nat)
      (sched : List (List Char)),
      content.length ≤ off →
      tailLoop (k + fuel) content off (List.replicate k [] ++ sched)
        = tailLoop fuel content off sched := by
  induction k with
  | zero =>
    intro fuel content off sched _
    simp
  | succ n ih =>
    intro fuel content off sched h
    have hdrop : content.drop off = [] := List.drop_eq_nil_of_le h
    rw [ show n + 1 + fuel = (n + fuel) + 1 by omega ]
    rw [ tailLoop_succ, hdrop,
      if_pos (show takeLine ([] : List Char) = [] from rfl) ]
    rw [ List.replicate_succ, List.cons_append ]
    show tailLoop (n + fuel) (content ++ []) off
      (List.replicate n [] ++ sched) = tailLoop fuel content off sched
    rw [ List.append_nil ]
    exact ih fuel content off sched h

/-- Core of the no-replay argument: starting at the end-of-file offset, a
single scheduled append of one LF-terminated line produces exactly that
line, regardless of the pre-existing content and of trailing empty polls. -/
theorem tailLoop_single_append (content line : List Char) (m : Nat)
    (hnl : '\n' ∉ line) (hcr : '\r' ∉ line) :
    tailLoop (m + 2) content content.length
        ((line ++ [ '\n' ]) :: List.replicate m []) = [ line ] := by
  have hdrop : content.drop content.length = [] :=
    List.drop_eq_nil_of_le (le_refl _)
  rw [ show m + 2 = (m + 1) + 1 by omega ]
  rw [ tailLoop_succ, hdrop,
    if_pos (show takeLine ([] : List Char) = [] from rfl) ]
  show tailLoop (m + 1) (content ++ (line ++ [ '\n' ])) content.length
      (List.replicate m []) = [ line ]
  rw [ tailLoop_succ ]
  have hdrop2 : (content ++ (line ++ [ '\n' ])).drop content.length
      = line ++ [ '\n' ] := List.drop_left content (line ++ [ '\n' ])
  rw [ hdrop2 ]
  have htl : takeLine (line ++ [ '\n' ]) = line ++ [ '\n' ] := by
    simpa using takeLine_append line [] hnl
  rw [ htl, if_neg (by simp : ¬ (line ++ [ '\n' ] = [])) ]
  rw [ rstrip_line line hnl hcr ]
  congr 1
  apply tailLoop_empty_polls_end
  simp only [ List.length_append ]
  omega

/-- C7: `tail_file` never emits content that existed before the session was
opened: the stream starts at the end-of-file offset, so on a file with
arbitrary pre-existing content, every poll schedule that appends exactly one
LF-terminated line (surrounded by any numbers of empty polls) makes the
stream emit exactly one element, equal to the appended line, and none of
the pre-existing ones. -/
theorem c7_tail_no_replay (cfg : Settings) (fs : FS) (u p : List Char)
    (q : List (List Char)) (pre line : List Char) (k m : Nat)
    (hauth : get_accessible_groups_for_file cfg u p ≠ [])
    (hq : get_absolute_path cfg.base_path p = Except.ok q)
    (hfind : fs.find? q = some (FSNode.file pre true))
    (hnl : '\n' ∉ line) (hcr : '\r' ∉ line) :
    tail_file cfg fs u p
        (List.replicate k [] ++ (line ++ [ '\n' ]) :: List.replicate m [])
        (k + (m + 2))
      = Except.ok [ line ] := by
  unfold tail_file
  rw [ if_neg hauth, hq ]
  simp only [ hfind ]
  rw [ if_neg (by decide : ¬ (true = false)) ]
  congr 1
  rw [ tailLoop_empty_polls_pre k (m + 2) pre pre.length
    ((line ++ [ '\n' ]) :: List.replicate m []) (le_refl _) ]
  exact tailLoop_single_append pre line m hnl hcr

/-- Pre-existing content of one hundred LF-terminated one-character lines,
used by the C7 witness. -/
def content100 : List Char :=
  (List.replicate 100 [ 'l', '\n' ]).flatten

/-- Snapshot holding the root directory and the readable 100-line file. -/
def fs100 : FS :=
  ⟨[ ([ [ 'l', 'o', 'g' ] ], FSNode.dir true),
     ([ [ 'l', 'o', 'g' ], [ 'f' ] ], FSNode.file content100 true) ]⟩

/-- Witness for C7: a file with one hundred pre-existing lines, one empty
poll, then one appended line, then one more empty poll, emits exactly the
appended line. -/
theorem c7_tail_no_replay_witness :
    tail_file cfgEps fs100 [ 'u' ] [ 'f' ]
        (List.replicate 1 [] ++
          ([ 'n', 'e', 'w' ] ++ [ '\n' ]) :: List.replicate 1 [])
        (1 + (1 + 2))
      = Except.ok [ [ 'n', 'e', 'w' ] ] :=
  c7_tail_no_replay cfgEps fs100 [ 'u' ] [ 'f' ]
    [ [ 'l', 'o', 'g' ], [ 'f' ] ] content100 [ 'n', 'e', 'w' ] 1 1
    (by decide) rfl rfl (by decide) (by decide)

/-- C10: whatever non-empty string `readline` returns at the current offset
is emitted immediately as one element (the general head-step equality),
including a trailing fragment with no LF terminator; concretely, on an
initially empty file, appending the fragment `ab` and later the completion
`cd` plus LF emits the two separate elements `ab` and `cd` rather than one
element `abcd`. -/
theorem c10_fragment_emitted_immediately (fuel : Nat) (content : List Char)
    (off : Nat) (sched : List (List Char))
    (hne : takeLine (content.drop off) ≠ []) :
    tailLoop (fuel + 1) content off sched
        = rstripNL (takeLine (content.drop off))
            :: tailLoop fuel content
                (off + (takeLine (content.drop off)).length) sched
    ∧ tailLoop 5 [] 0 [ [ 'a', 'b' ], [ 'c', 'd', '\n' ] ]
        = [ [ 'a', 'b' ], [ 'c', 'd' ] ] := by
  constructor
  · rw [ tailLoop_succ, if_neg hne ]
  · rfl

/-- Witness for C10: a one-character unterminated fragment is emitted at
once as an element. -/
theorem c10_fragment_emitted_immediately_witness :
    tailLoop (0 + 1) [ 'x' ] 0 [] = [ [ 'x' ] ]
    ∧ tailLoop 5 [] 0 [ [ 'a', 'b' ], [ 'c', 'd', '\n' ] ]
        = [ [ 'a', 'b' ], [ 'c', 'd' ] ] := by
  refine ⟨?_, (c10_fragment_emitted_immediately 0 [ 'x' ] 0 [] (by decide)).2⟩
  rw [ (c10_fragment_emitted_immediately 0 [ 'x' ] 0 [] (by decide)).1 ]
  rfl

/-- Pipeline following the spec's words for C6, for comparison with the
code: resolve the path first (rejecting escapes before anything else), then
consult the authorization engine with the canonical root-relative path
produced by the resolver, then perform the same filesystem steps as
`get_file_content`. -/
def get_file_content_resolve_first (cfg : Settings) (fs : FS)
    (username file_path : List Char) (start_line : Int)
    (page_size : Option Int) : Except Err (List (List Char) × Nat × Bool) :=
  let ps := min (page_size.getD cfg.default_page_size) cfg.max_page_size
  match get_absolute_path cfg.base_path file_path with
  | Except.error e => Except.error e
  | Except.ok absolute =>
    if get_accessible_groups_for_file cfg username
        (pathToStr (absolute.drop cfg.base_path.length)) = [] then
      Except.error Err.accessDenied
    else
      match fs.find? absolute with
      | none => Except.error Err.notFound
      | some (FSNode.dir _) => Except.error Err.notAFile
      | some (FSNode.file content readable) =>
        if (content.length : Int) > cfg.max_file_size then
          Except.error Err.tooLarge
        else if readable = false then Except.error Err.ioError
        else
          let ls := pyLines content
          let total := ls.length
          let lines :=
            ((ls.drop (start_line - 1).toNat).take ps.toNat).map rstripNL
          Except.ok (lines, total,
            decide (start_line + (lines.length : Int) - 1 < (total : Int)))

/-- Configuration with a single group whose pattern is the literal string
`app/` (matching, as a prefix, every path below `app/`) and one user. -/
def cfgApp : Settings where
  base_path := [ [ 'l', 'o', 'g' ] ]
  max_file_size := 100
  default_page_size := 2
  max_page_size := 10000
  groups :=
    [ ⟨[ 'g' ],
        RegularExpression.comp (RegularExpression.char 'a')
          (RegularExpression.comp (RegularExpression.char 'p')
            (RegularExpression.comp (RegularExpression.char 'p')
              (RegularExpression.char '/'))),
        [ [ 'u' ] ]⟩ ]

/-- Snapshot holding the root directory and a readable file `s` directly
under the root (outside the `app/` area). -/
def fsSecret : FS :=
  ⟨[ ([ [ 'l', 'o', 'g' ] ], FSNode.dir true),
     ([ [ 'l', 'o', 'g' ], [ 's' ] ], FSNode.file [ 'x', '\n' ] true) ]⟩

/-- Counterexample to C6: for the request path `app/../s` the canonical
root-relative path is `s`, which matches no group of the user, yet
`get_file_content` serves the file because the authorization engine is
consulted with the raw request path (matched by the `app/` pattern) before
any path resolution; the pipeline claimed by the spec (resolution and
containment first, authorization on the canonical relative path) denies
this same request. -/
theorem c6_counterexample_raw_path_authorization :
    get_accessible_groups_for_file cfgApp [ 'u' ] [ 's' ] = []
    ∧ get_file_content cfgApp fsSecret [ 'u' ]
        [ 'a', 'p', 'p', '/', '.', '.', '/', 's' ] 1 none
        = Except.ok ([ [ 'x' ] ], 1, false)
    ∧ get_file_content_resolve_first cfgApp fsSecret [ 'u' ]
        [ 'a', 'p', 'p', '/', '.', '.', '/', 's' ] 1 none
        = Except.error Err.accessDenied :=
  ⟨rfl, rfl, rfl⟩

/-- C6 amended: in both `get_file_content` and `tail_file` the authorization
engine is consulted first, with the caller-supplied raw request path; when
it returns no groups the call fails with access denied even for a path the
resolver would reject, and for an authorized request a resolver rejection
surfaces before any filesystem access (the outcome is independent of the
filesystem snapshot). -/
theorem c6_amended_raw_auth_precedes_resolution (cfg : Settings) (fs : FS)
    (u p : List Char) (sl : Int) (ps : Option Int)
    (sched : List (List Char)) (fuel : Nat) :
    (get_accessible_groups_for_file cfg u p = [] →
      get_file_content cfg fs u p sl ps = Except.error Err.accessDenied
      ∧ tail_file cfg fs u p sched fuel = Except.error Err.accessDenied)
    ∧ (get_accessible_groups_for_file cfg u p ≠ [] →
        get_absolute_path cfg.base_path p = Except.error Err.outOfBoundsPath →
        get_file_content cfg fs u p sl ps = Except.error Err.outOfBoundsPath
        ∧ tail_file cfg fs u p sched fuel
            = Except.error Err.outOfBoundsPath) := by
  constructor
  · intro h
    constructor
    · simp [ get_file_content, h ]
    · simp [ tail_file, h ]
  · intro hne hq
    constructor
    · simp [ get_file_content, hne, hq ]
    · simp [ tail_file, hne, hq ]

/-- Witness for the amended C6: a user with no groups is denied on both
operations before any resolution or filesystem access. -/
theorem c6_amended_raw_auth_precedes_resolution_witness :
    get_file_content cfgNoGroups fsEmpty [ 'u' ] [ 'f' ] 1 none
        = Except.error Err.accessDenied
    ∧ tail_file cfgNoGroups fsEmpty [ 'u' ] [ 'f' ] [] 3
        = Except.error Err.accessDenied :=
  (c6_amended_raw_auth_precedes_resolution cfgNoGroups fsEmpty
      [ 'u' ] [ 'f' ] 1 none [] 3).1 rfl
